import Mathlib

/-!
# Verification of the spektral citation-network example scripts

This development embeds the two training scripts
(examples/node_prediction/citation_arma.py and citation_gat.py) and the
library behaviour they rely on. The scripts themselves are thin glue;
the layer, loader, dataset and callback implementations they call are
not part of the repository, so those parts are modelled from the
specification text, as noted on each definition.
-/

namespace Spektral

/-! ## Early stopping (claim C1)

Modelled from the spec: the EarlyStopping callback used by both scripts
(patience = 100, restore_best_weights = True) tracks the best validation
loss seen; if no improvement for patience consecutive epochs it stops and
restores the parameter snapshot from the best epoch. The callback code is
not in the repository. Losses live in an arbitrary linear order, standing
in for real-valued validation losses. -/

/-- State of the early-stopping tracker: best validation loss seen so far,
the epoch it occurred at, the parameter snapshot taken at that epoch, and
the number of consecutive epochs without improvement since then. -/
structure ESState (P : Type*) (α : Type*) where
  best : α
  bestEpoch : ℕ
  snapshot : P
  wait : ℕ

/-- One epoch of tracking: a strictly better validation loss resets the
tracker to the current epoch and snapshots the parameters; otherwise the
wait counter grows. -/
def esUpdate {P α : Type*} [LinearOrder α] (loss : ℕ → α) (params : ℕ → P)
    (e : ℕ) (s : ESState P α) : ESState P α :=
  if loss e < s.best then ⟨loss e, e, params e, 0⟩
  else ⟨s.best, s.bestEpoch, s.snapshot, s.wait + 1⟩

/-- Result of a training run: the epoch at which training halted, the final
tracker state, and whether the halt came from early stopping (true) or from
reaching the epoch limit (false). -/
structure ESRun (P : Type*) (α : Type*) where
  stopEpoch : ℕ
  state : ESState P α
  earlyStopped : Bool

/-- The training loop from epoch e with the given remaining fuel: each
epoch updates the tracker and halts as soon as the wait counter reaches
the patience. -/
def esLoop {P α : Type*} [LinearOrder α] (loss : ℕ → α) (params : ℕ → P)
    (patience : ℕ) : ℕ → ℕ → ESState P α → ESRun P α
  | 0, e, s => ⟨e, s, false⟩
  | fuel + 1, e, s =>
    let s2 := esUpdate loss params e s
    if patience ≤ s2.wait then ⟨e, s2, true⟩
    else esLoop loss params patience fuel (e + 1) s2

/-- A full training run of maxEpochs epochs: epoch 0 always improves on
the initial infinite best, so the loop proper starts at epoch 1 with the
tracker holding epoch 0. -/
def esRun {P α : Type*} [LinearOrder α] (loss : ℕ → α) (params : ℕ → P)
    (patience maxEpochs : ℕ) : ESRun P α :=
  esLoop loss params patience (maxEpochs - 1) 1 ⟨loss 0, 0, params 0, 0⟩

/-- Invariant maintained by the tracker between epochs: the recorded best
epoch lies strictly in the past, the recorded best and snapshot are the
loss and parameters of that epoch, the wait counter measures exactly the
distance to it, and the run has not yet exhausted its patience. -/
def ESInv {P α : Type*} (loss : ℕ → α) (params : ℕ → P) (patience e : ℕ)
    (s : ESState P α) : Prop :=
  s.bestEpoch < e ∧ s.best = loss s.bestEpoch ∧
    s.snapshot = params s.bestEpoch ∧ s.wait + s.bestEpoch + 1 = e ∧
    s.wait < patience

theorem esLoop_halt {P α : Type*} [LinearOrder α] (loss : ℕ → α)
    (params : ℕ → P) (patience n e : ℕ) (s : ESState P α)
    (h : patience ≤ (esUpdate loss params e s).wait) :
    esLoop loss params patience (n + 1) e s =
      ⟨e, esUpdate loss params e s, true⟩ := by
  rw [esLoop]
  simp [h]

theorem esLoop_go {P α : Type*} [LinearOrder α] (loss : ℕ → α)
    (params : ℕ → P) (patience n e : ℕ) (s : ESState P α)
    (h : ¬ patience ≤ (esUpdate loss params e s).wait) :
    esLoop loss params patience (n + 1) e s =
      esLoop loss params patience n (e + 1) (esUpdate loss params e s) := by
  rw [esLoop]
  simp [h]

theorem esLoop_spec {P α : Type*} [LinearOrder α] (loss : ℕ → α)
    (params : ℕ → P) (patience : ℕ) (hp : 0 < patience) :
    ∀ fuel e s, ESInv loss params patience e s →
      (((esLoop loss params patience fuel e s).earlyStopped = true →
        (esLoop loss params patience fuel e s).stopEpoch =
          (esLoop loss params patience fuel e s).state.bestEpoch + patience ∧
        (esLoop loss params patience fuel e s).state.snapshot =
          params (esLoop loss params patience fuel e s).state.bestEpoch) ∧
      ((esLoop loss params patience fuel e s).earlyStopped = false →
        (esLoop loss params patience fuel e s).stopEpoch = e + fuel ∧
        ESInv loss params patience (e + fuel)
          (esLoop loss params patience fuel e s).state)) := by
  intro fuel
  induction fuel with
  | zero =>
    intro e s hs
    exact ⟨fun h => by simp [esLoop] at h, fun _ => ⟨rfl, hs⟩⟩
  | succ n ih =>
    intro e s hs
    obtain ⟨hlt, hbest, hsnap, hwait, hpat⟩ := hs
    by_cases hstop : patience ≤ (esUpdate loss params e s).wait
    · rw [esLoop_halt loss params patience n e s hstop]
      by_cases himp : loss e < s.best
      · exfalso
        have hupd : esUpdate loss params e s = ⟨loss e, e, params e, 0⟩ := by
          simp [esUpdate, himp]
        rw [hupd] at hstop
        have hstop2 : patience ≤ 0 := hstop
        omega
      · have hupd : esUpdate loss params e s =
            ⟨s.best, s.bestEpoch, s.snapshot, s.wait + 1⟩ := by
          simp [esUpdate, himp]
        rw [hupd] at hstop ⊢
        have hstop2 : patience ≤ s.wait + 1 := hstop
        refine ⟨fun _ => ⟨?_, hsnap⟩, fun h => by simp at h⟩
        show e = s.bestEpoch + patience
        omega
    · rw [esLoop_go loss params patience n e s hstop]
      have hinv : ESInv loss params patience (e + 1) (esUpdate loss params e s) := by
        by_cases himp : loss e < s.best
        · have hupd : esUpdate loss params e s = ⟨loss e, e, params e, 0⟩ := by
            simp [esUpdate, himp]
          rw [hupd]
          refine ⟨?_, rfl, rfl, ?_, hp⟩
          · show e < e + 1
            omega
          · show 0 + e + 1 = e + 1
            omega
        · have hupd : esUpdate loss params e s =
              ⟨s.best, s.bestEpoch, s.snapshot, s.wait + 1⟩ := by
            simp [esUpdate, himp]
          rw [hupd] at hstop ⊢
          have hstop2 : ¬ patience ≤ s.wait + 1 := hstop
          refine ⟨?_, hbest, hsnap, ?_, ?_⟩
          · show s.bestEpoch < e + 1
            omega
          · show s.wait + 1 + s.bestEpoch + 1 = e + 1
            omega
          · show s.wait + 1 < patience
            omega
      have := ih (e + 1) (esUpdate loss params e s) hinv
      refine ⟨this.1, fun h => ?_⟩
      obtain ⟨h1, h2⟩ := this.2 h
      rw [h1]
      exact ⟨by omega, by rw [show e + (n + 1) = e + 1 + n by omega]; exact h2⟩

/-- Patience for early stopping, as set in both training scripts. -/
def scriptPatience : ℕ := 100

/-- Number of training epochs, as set in both training scripts. -/
def scriptEpochs : ℕ := 20000

/-- C1: for every run of either training script, if the best validation
loss of the run occurs at epoch best_epoch and the validation-loss
sequence fails to improve over that best for the following patience + 1
epochs, then training halts by early stopping exactly at epoch
best_epoch + patience, and the restored model parameters (the snapshot
held by the callback, restore_best_weights being set) are exactly the
snapshot taken at best_epoch. -/
theorem earlyStopping_halts_at_best_plus_patience {P α : Type*}
    [LinearOrder α] (loss : ℕ → α) (params : ℕ → P)
    (b patience maxEpochs : ℕ) (hp : 0 < patience)
    (hmax : b + patience < maxEpochs)
    (hb : (esRun loss params patience maxEpochs).state.bestEpoch = b)
    (hworse : ∀ i, i ≤ patience + 1 → 1 ≤ i → loss b ≤ loss (b + i)) :
    (esRun loss params patience maxEpochs).earlyStopped = true ∧
    (esRun loss params patience maxEpochs).stopEpoch = b + patience ∧
    (esRun loss params patience maxEpochs).state.snapshot = params b := by
  have h0 : ESInv loss params patience 1
      (⟨loss 0, 0, params 0, 0⟩ : ESState P α) := by
    refine ⟨?_, rfl, rfl, ?_, hp⟩
    · show 0 < 1
      omega
    · show 0 + 0 + 1 = 1
      omega
  have hs := esLoop_spec loss params patience hp (maxEpochs - 1) 1
    ⟨loss 0, 0, params 0, 0⟩ h0
  have he : esRun loss params patience maxEpochs =
      esLoop loss params patience (maxEpochs - 1) 1 ⟨loss 0, 0, params 0, 0⟩ :=
    rfl
  rw [he] at hb ⊢
  cases hES : (esLoop loss params patience (maxEpochs - 1) 1
      (⟨loss 0, 0, params 0, 0⟩ : ESState P α)).earlyStopped with
  | false =>
    exfalso
    obtain ⟨_, _, _, hw, hlt⟩ := (hs.2 hES).2
    rw [hb] at hw
    omega
  | true =>
    obtain ⟨h1, h2⟩ := hs.1 hES
    rw [hb] at h1 h2
    exact ⟨rfl, h1, h2⟩

/-- Validation-loss sequence for the C1 witness: best value 5 at epoch 1,
worse afterwards. -/
def wLoss : ℕ → ℕ := fun e => if e = 0 then 10 else if e = 1 then 5 else 7

/-- Parameter trajectory for the C1 witness: the parameters at epoch e are
just e. -/
def wParams : ℕ → ℕ := fun e => e

theorem earlyStopping_halts_at_best_plus_patience_witness :
    0 < scriptPatience ∧ 1 + scriptPatience < scriptEpochs ∧
    (esRun wLoss wParams scriptPatience scriptEpochs).state.bestEpoch = 1 ∧
    (∀ i, i ≤ scriptPatience + 1 → 1 ≤ i → wLoss 1 ≤ wLoss (1 + i)) ∧
    ((esRun wLoss wParams scriptPatience scriptEpochs).earlyStopped = true ∧
    (esRun wLoss wParams scriptPatience scriptEpochs).stopEpoch =
      1 + scriptPatience ∧
    (esRun wLoss wParams scriptPatience scriptEpochs).state.snapshot =
      wParams 1) :=
  ⟨by decide, by decide, by decide, by decide,
    earlyStopping_halts_at_best_plus_patience wLoss wParams 1 scriptPatience
      scriptEpochs (by decide) (by decide) (by decide) (by decide)⟩

/-! ## Masked weighted loss (claims C2, C3)

Modelled from the spec: SingleLoader passes the boolean train mask as
per-node sample weights, and model.compile uses categorical cross-entropy;
the weighted loss multiplies the per-node loss by 1.0 for nodes in the
mask and 0.0 otherwise and averages over the mask cardinality. The loader
and loss implementations are not in the repository. -/

noncomputable section

/-- Sample weight of a node: 1.0 if the node is in the mask, 0.0
otherwise. -/
def maskWeight {N : ℕ} (mask : Fin N → Bool) (i : Fin N) : ℝ :=
  if mask i then 1 else 0

/-- Number of nodes selected by a boolean mask. -/
def maskCard {N : ℕ} (mask : Fin N → Bool) : ℕ :=
  (Finset.univ.filter fun i => mask i = true).card

/-- The weighted loss: per-node losses weighted by the 0/1 sample weights,
summed over the entire graph and averaged over the mask cardinality. -/
def weightedLoss {N : ℕ} (perNode : Fin N → ℝ) (mask : Fin N → Bool) : ℝ :=
  (∑ i, maskWeight mask i * perNode i) / (maskCard mask : ℝ)

/-- Per-node categorical cross-entropy between a one-hot label row and a
predicted probability row. -/
def crossEntropy {C : ℕ} (label prob : Fin C → ℝ) : ℝ :=
  -∑ c, label c * Real.log (prob c)

/-- The loss used by a training epoch: weighted categorical cross-entropy
of the predictions of the whole graph against the labels, with the train
mask as sample weights. -/
def trainEpochLoss {N C : ℕ} (labels preds : Fin N → Fin C → ℝ)
    (mask : Fin N → Bool) : ℝ :=
  weightedLoss (fun i => crossEntropy (labels i) (preds i)) mask

/-- C2: for every epoch, the loss used for the parameter update is the
per-node cross-entropy over the entire graph weighted 1.0 on the train
mask and 0.0 off it, averaged over the train-mask cardinality: it equals
the sum of the per-node cross-entropies of the masked nodes divided by
the number of masked nodes. -/
theorem trainEpochLoss_eq_masked_average {N C : ℕ}
    (labels preds : Fin N → Fin C → ℝ) (mask : Fin N → Bool) :
    trainEpochLoss labels preds mask =
      (∑ i ∈ Finset.univ.filter fun i => mask i = true,
        crossEntropy (labels i) (preds i)) / (maskCard mask : ℝ) := by
  unfold trainEpochLoss weightedLoss
  congr 1
  rw [Finset.sum_filter]
  refine Finset.sum_congr rfl fun i _ => ?_
  by_cases h : mask i = true
  · simp [maskWeight, h]
  · simp [maskWeight, h]

/-- C3: for every label matrix and every model output, the weighted loss
computed with the all-zero mask is exactly 0. -/
theorem weightedLoss_zero_mask {N C : ℕ}
    (labels preds : Fin N → Fin C → ℝ) :
    trainEpochLoss labels preds (fun _ => false) = 0 := by
  unfold trainEpochLoss weightedLoss
  have h : ∀ i : Fin N, maskWeight (fun _ : Fin N => false) i *
      crossEntropy (labels i) (preds i) = 0 := by
    intro i
    simp [maskWeight]
  rw [Finset.sum_congr rfl fun i _ => h i]
  simp

end

/-! ## Citation dataset masks (claim C8)

Modelled from the spec: the Citation dataset loader (not in the
repository) supplies boolean train/validation/test masks of length N for
the cora graph; the spec requires them to be pairwise disjoint with total
cardinality at most N. The standard Planetoid split for cora is used:
N = 2708 nodes, train nodes 0..139, validation nodes 140..639, test
nodes 1708..2707, with F = 1433 input features and C = 7 classes fixed
for the lifetime of the dataset. -/

/-- Number of nodes of the cora citation graph. -/
def coraN : ℕ := 2708

/-- Number of input features of the cora citation graph. -/
def coraF : ℕ := 1433

/-- Number of classes of the cora citation graph. -/
def coraC : ℕ := 7

/-- Train mask of the cora split. -/
def coraMaskTr : Fin coraN → Bool := fun i => decide (i.val < 140)

/-- Validation mask of the cora split. -/
def coraMaskVa : Fin coraN → Bool := fun i => decide (140 ≤ i.val ∧ i.val < 640)

/-- Test mask of the cora split. -/
def coraMaskTe : Fin coraN → Bool := fun i => decide (1708 ≤ i.val)

/-- Three pairwise disjoint boolean masks on N nodes select at most N
nodes in total. -/
theorem maskCard_three_disjoint_le {N : ℕ} (m1 m2 m3 : Fin N → Bool)
    (h12 : ∀ i, ¬(m1 i = true ∧ m2 i = true))
    (h13 : ∀ i, ¬(m1 i = true ∧ m3 i = true))
    (h23 : ∀ i, ¬(m2 i = true ∧ m3 i = true)) :
    maskCard m1 + maskCard m2 + maskCard m3 ≤ N := by
  unfold maskCard
  have hAB : Disjoint (Finset.univ.filter fun i => m1 i = true)
      (Finset.univ.filter fun i => m2 i = true) := by
    rw [Finset.disjoint_filter]
    intro i _ ha hb
    exact h12 i ⟨ha, hb⟩
  have hAD : Disjoint (Finset.univ.filter fun i => m1 i = true)
      (Finset.univ.filter fun i => m3 i = true) := by
    rw [Finset.disjoint_filter]
    intro i _ ha hb
    exact h13 i ⟨ha, hb⟩
  have hBD : Disjoint (Finset.univ.filter fun i => m2 i = true)
      (Finset.univ.filter fun i => m3 i = true) := by
    rw [Finset.disjoint_filter]
    intro i _ ha hb
    exact h23 i ⟨ha, hb⟩
  have hABD : Disjoint ((Finset.univ.filter fun i => m1 i = true) ∪
      (Finset.univ.filter fun i => m2 i = true))
      (Finset.univ.filter fun i => m3 i = true) :=
    Finset.disjoint_union_left.2 ⟨hAD, hBD⟩
  rw [← Finset.card_union_of_disjoint hAB, ← Finset.card_union_of_disjoint hABD]
  exact (Finset.card_le_univ _).trans_eq (Finset.card_fin N)

/-- C8: the train, validation and test masks of the dataset instance are
pairwise disjoint boolean vectors of length N, and their cardinalities
together are at most N. -/
theorem cora_masks_disjoint_card_le :
    (∀ i, ¬(coraMaskTr i = true ∧ coraMaskVa i = true)) ∧
    (∀ i, ¬(coraMaskTr i = true ∧ coraMaskTe i = true)) ∧
    (∀ i, ¬(coraMaskVa i = true ∧ coraMaskTe i = true)) ∧
    maskCard coraMaskTr + maskCard coraMaskVa + maskCard coraMaskTe ≤
      coraN := by
  have htrva : ∀ i, ¬(coraMaskTr i = true ∧ coraMaskVa i = true) := by
    intro i
    simp only [coraMaskTr, coraMaskVa, decide_eq_true_eq]
    omega
  have htrte : ∀ i, ¬(coraMaskTr i = true ∧ coraMaskTe i = true) := by
    intro i
    simp only [coraMaskTr, coraMaskTe, decide_eq_true_eq]
    omega
  have hvate : ∀ i, ¬(coraMaskVa i = true ∧ coraMaskTe i = true) := by
    intro i
    simp only [coraMaskVa, coraMaskTe, decide_eq_true_eq]
    omega
  exact ⟨htrva, htrte, hvate,
    maskCard_three_disjoint_le coraMaskTr coraMaskVa coraMaskTe htrva htrte
      hvate⟩

/-! ## Trainer frame effect (claim C9)

Modelled from the spec: the trainer state machine runs one optimizer
update per epoch; the per-epoch validation check is the same forward
pass with validation-mask weights and performs no parameter update, and
the final evaluation is one forward pass scored against the test mask.
The fitting and evaluation code is not in the repository. Parameters are
an abstract type P; the optimizer step, validation scoring and test
scoring are abstract functions of the parameters. -/

/-- Trainer state: current model parameters together with the history of
validation losses recorded so far. -/
structure TrainState (P : Type*) where
  params : P
  valHistory : List ℝ

/-- One training epoch: apply the optimizer update to the parameters,
then run the validation forward pass on the updated parameters and record
its loss. The validation pass only reads the parameters. -/
noncomputable def fitEpoch {P : Type*} (upd : P → P) (valLoss : P → ℝ)
    (s : TrainState P) : TrainState P :=
  ⟨upd s.params, s.valHistory ++ [valLoss (upd s.params)]⟩

/-- Training for n epochs. -/
noncomputable def fitRun {P : Type*} (upd : P → P) (valLoss : P → ℝ)
    (n : ℕ) (s : TrainState P) : TrainState P :=
  (fitEpoch upd valLoss)^[n] s

/-- Final test evaluation: score the current parameters against the test
mask and return the score together with the trainer state it leaves
behind. -/
noncomputable def evaluateModel {P : Type*} (testLoss : P → ℝ)
    (s : TrainState P) : ℝ × TrainState P :=
  (testLoss s.params, s)

/-- C9: model parameters are mutated only by the optimizer step. After n
training epochs the parameters are exactly the n-fold optimizer update of
the initial parameters, whatever the validation scoring function does,
and the final test evaluation returns the trainer state unchanged. -/
theorem params_only_mutated_by_optimizer {P : Type*} (upd : P → P)
    (valLoss testLoss : P → ℝ) (n : ℕ) (s : TrainState P) :
    (fitRun upd valLoss n s).params = upd^[n] s.params ∧
    (evaluateModel testLoss (fitRun upd valLoss n s)).2 =
      fitRun upd valLoss n s := by
  refine ⟨?_, rfl⟩
  induction n with
  | zero => rfl
  | succ k ih =>
    unfold fitRun at ih ⊢
    rw [Function.iterate_succ_apply', Function.iterate_succ_apply']
    show upd ((fitEpoch upd valLoss)^[k] s).params = upd (upd^[k] s.params)
    rw [ih]

/-! ## Softmax, activations and the graph attention layer (claims C4, C5)

Modelled from the spec: the GraphAttention layer (not in the repository)
computes, per head, a linear projection of the node features, leaky-ReLU
attention logits over the edges of A plus self-loops, a softmax over each
neighbor set with non-edges masked out, and the attention-weighted
aggregation of the projected features. Arithmetic is over the real
numbers, standing in for floating point. -/

noncomputable section

/-- Softmax of a finite real vector. -/
def softmaxRow {ι : Type*} [Fintype ι] (z : ι → ℝ) : ι → ℝ :=
  fun c => Real.exp (z c) / ∑ c2, Real.exp (z c2)

/-- Row-wise softmax of a matrix, the output activation of both models. -/
def rowSoftmax {N : ℕ} {ι : Type*} [Fintype ι] (M : Matrix (Fin N) ι ℝ) :
    Matrix (Fin N) ι ℝ :=
  fun i c => softmaxRow (M i) c

/-- Exponential linear unit, the hidden activation of both models. -/
def elu (x : ℝ) : ℝ := if x < 0 then Real.exp x - 1 else x

/-- Leaky rectified linear unit with negative slope a, applied to the raw
attention logits. -/
def leakyReLU (a x : ℝ) : ℝ := if x < 0 then a * x else x

/-- The neighbor set of node i: the nodes j such that (i, j) is an edge
of A, plus the self-loop at i. -/
def nbrFinset {N : ℕ} (edge : Fin N → Fin N → Bool) (i : Fin N) :
    Finset (Fin N) :=
  Finset.univ.filter fun j => edge i j = true ∨ i = j

/-- Normalized attention coefficients: softmax of the logits over the
neighbor set of i, and 0 outside it (non-edges are masked out of the
softmax). -/
def attn {N : ℕ} (edge : Fin N → Fin N → Bool) (logit : Fin N → Fin N → ℝ)
    (i j : Fin N) : ℝ :=
  if j ∈ nbrFinset edge i then
    Real.exp (logit i j) / ∑ k ∈ nbrFinset edge i, Real.exp (logit i k)
  else 0

/-- Unnormalized attention logit of the edge (i, j): leaky ReLU of the
attention kernel applied to the concatenation of the projected features
of i and of j. The kernel is split into its two halves a1 and a2. -/
def gatLogit {N H : ℕ} {ι : Type*} [Fintype ι] (a : ℝ)
    (W : Matrix ι (Fin H) ℝ) (a1 a2 : Fin H → ℝ) (X : Matrix (Fin N) ι ℝ)
    (i j : Fin N) : ℝ :=
  leakyReLU a ((∑ h, a1 h * (X * W) i h) + ∑ h, a2 h * (X * W) j h)

/-- One attention head: attention-weighted aggregation of the projected
features over each neighbor set. -/
def gatHead {N H : ℕ} {ι : Type*} [Fintype ι] (edge : Fin N → Fin N → Bool)
    (a : ℝ) (W : Matrix ι (Fin H) ℝ) (a1 a2 : Fin H → ℝ)
    (X : Matrix (Fin N) ι ℝ) : Matrix (Fin N) (Fin H) ℝ :=
  fun i h => ∑ j, attn edge (gatLogit a W a1 a2 X) i j * (X * W) j h

/-- Concatenation of per-head outputs along the feature axis, realized by
indexing features with a head-feature pair. -/
def concatHeads {N Hn ch : ℕ} (f : Fin Hn → Matrix (Fin N) (Fin ch) ℝ) :
    Matrix (Fin N) (Fin Hn × Fin ch) ℝ :=
  fun i p => f p.1 i p.2

/-- The neighbor set of i always contains i itself. -/
theorem self_mem_nbrFinset {N : ℕ} (edge : Fin N → Fin N → Bool)
    (i : Fin N) : i ∈ nbrFinset edge i := by
  simp [nbrFinset]

/-- The attention coefficients of each node sum to 1 over the whole
graph, for any logit function. -/
theorem attn_sum_eq_one {N : ℕ} (edge : Fin N → Fin N → Bool)
    (logit : Fin N → Fin N → ℝ) (i : Fin N) :
    ∑ j, attn edge logit i j = 1 := by
  have hpos : 0 < ∑ k ∈ nbrFinset edge i, Real.exp (logit i k) :=
    Finset.sum_pos (fun k _ => Real.exp_pos _)
      ⟨i, self_mem_nbrFinset edge i⟩
  unfold attn
  rw [Finset.sum_ite_mem, Finset.univ_inter, ← Finset.sum_div,
    div_self hpos.ne']

/-- C5: in the graph attention layer, the attention coefficients of every
node sum to 1 over its neighbor set, and the coefficient of every pair
(i, j) that is neither an edge of A nor a self-loop is 0. -/
theorem gat_attn_normalized {N H : ℕ} {ι : Type*} [Fintype ι]
    (edge : Fin N → Fin N → Bool) (a : ℝ) (W : Matrix ι (Fin H) ℝ)
    (a1 a2 : Fin H → ℝ) (X : Matrix (Fin N) ι ℝ) (i : Fin N) :
    (∑ j, attn edge (gatLogit a W a1 a2 X) i j = 1) ∧
    (∀ j, edge i j = false → i ≠ j →
      attn edge (gatLogit a W a1 a2 X) i j = 0) := by
  refine ⟨attn_sum_eq_one edge (gatLogit a W a1 a2 X) i, fun j hne hself => ?_⟩
  have hnot : j ∉ nbrFinset edge i := by
    simp only [nbrFinset, Finset.mem_filter, Finset.mem_univ, true_and]
    rintro (h | h)
    · rw [hne] at h
      exact Bool.false_ne_true h
    · exact hself h
  unfold attn
  rw [if_neg hnot]

end

/-! ## ARMA convolution layer (claims C6, C7)

Modelled from the spec: the ARMAConv layer (not in the repository) sums K
parallel ARMA stacks; each stack performs T graph-convolution
propagations, the first producing h0 = gcnActivation(A X W0) and each
further one h := gcnActivation(A h W1 + dropout(X V)), with the skip
dropout applied to the X V term; the outer activation is applied to the
sum. When share_weights holds all stacks use the parameters of stack 0,
otherwise each stack has its own. The count T includes the initial
propagation, which makes order 1 with iterations 1 degenerate to a single
graph-convolution step exactly as the spec requires for the output
layer. -/

noncomputable section

/-- One ARMA stack after a given number of refinement updates: index t
holds the state after t + 1 propagations, starting from
h0 = gcnActivation(A X W0). -/
def armaStack {N F H : ℕ} (gcnAct : ℝ → ℝ)
    (dropSkip : Matrix (Fin N) (Fin H) ℝ → Matrix (Fin N) (Fin H) ℝ)
    (A : Matrix (Fin N) (Fin N) ℝ) (X : Matrix (Fin N) (Fin F) ℝ)
    (W0 : Matrix (Fin F) (Fin H) ℝ) (W1 : Matrix (Fin H) (Fin H) ℝ)
    (V : Matrix (Fin F) (Fin H) ℝ) : ℕ → Matrix (Fin N) (Fin H) ℝ
  | 0 => (A * X * W0).map gcnAct
  | t + 1 =>
    (A * armaStack gcnAct dropSkip A X W0 W1 V t * W1 + dropSkip (X * V)).map
      gcnAct

/-- The ARMA convolution layer: the outer activation of the sum of K
parallel stacks, each running T propagations, with shared or independent
per-stack parameters according to the share flag. -/
def armaConv {N F H : ℕ} (K T : ℕ) (share : Bool)
    (outerAct : Matrix (Fin N) (Fin H) ℝ → Matrix (Fin N) (Fin H) ℝ)
    (gcnAct : ℝ → ℝ)
    (dropSkip : Matrix (Fin N) (Fin H) ℝ → Matrix (Fin N) (Fin H) ℝ)
    (A : Matrix (Fin N) (Fin N) ℝ) (X : Matrix (Fin N) (Fin F) ℝ)
    (W0 : ℕ → Matrix (Fin F) (Fin H) ℝ) (W1 : ℕ → Matrix (Fin H) (Fin H) ℝ)
    (V : ℕ → Matrix (Fin F) (Fin H) ℝ) : Matrix (Fin N) (Fin H) ℝ :=
  outerAct (∑ k ∈ Finset.range K,
    armaStack gcnAct dropSkip A X (W0 (if share = true then 0 else k))
      (W1 (if share = true then 0 else k)) (V (if share = true then 0 else k))
      (T - 1))

/-- A single plain graph-convolution step: activation of A X W. -/
def gcnStep {N F H : ℕ}
    (act : Matrix (Fin N) (Fin H) ℝ → Matrix (Fin N) (Fin H) ℝ)
    (A : Matrix (Fin N) (Fin N) ℝ) (X : Matrix (Fin N) (Fin F) ℝ)
    (W : Matrix (Fin F) (Fin H) ℝ) : Matrix (Fin N) (Fin H) ℝ :=
  act (A * X * W)

/-- C6: the ARMA layer output is the outer activation of the sum of the
K parallel stacks; each stack starts from h0 = gcnActivation(A X W0) and
performs updates h := gcnActivation(A h W1 + dropout(X V)); with
share_weights all K stacks use the parameters of stack 0, so the sum
collapses to K times the first stack, and without it each stack has its
own parameters. -/
theorem armaConv_is_sum_of_stacks {N F H : ℕ} (K T : ℕ)
    (outerAct : Matrix (Fin N) (Fin H) ℝ → Matrix (Fin N) (Fin H) ℝ)
    (gcnAct : ℝ → ℝ)
    (dropSkip : Matrix (Fin N) (Fin H) ℝ → Matrix (Fin N) (Fin H) ℝ)
    (A : Matrix (Fin N) (Fin N) ℝ) (X : Matrix (Fin N) (Fin F) ℝ)
    (W0 : ℕ → Matrix (Fin F) (Fin H) ℝ) (W1 : ℕ → Matrix (Fin H) (Fin H) ℝ)
    (V : ℕ → Matrix (Fin F) (Fin H) ℝ) :
    (∀ w0 w1 v, armaStack gcnAct dropSkip A X w0 w1 v 0 =
      (A * X * w0).map gcnAct) ∧
    (∀ w0 w1 v t, armaStack gcnAct dropSkip A X w0 w1 v (t + 1) =
      (A * armaStack gcnAct dropSkip A X w0 w1 v t * w1 +
        dropSkip (X * v)).map gcnAct) ∧
    (armaConv K T false outerAct gcnAct dropSkip A X W0 W1 V =
      outerAct (∑ k ∈ Finset.range K,
        armaStack gcnAct dropSkip A X (W0 k) (W1 k) (V k) (T - 1))) ∧
    (armaConv K T true outerAct gcnAct dropSkip A X W0 W1 V =
      outerAct (K •
        armaStack gcnAct dropSkip A X (W0 0) (W1 0) (V 0) (T - 1))) := by
  refine ⟨fun w0 w1 v => rfl, fun w0 w1 v t => rfl, by simp [armaConv], ?_⟩
  unfold armaConv
  simp [Finset.sum_const, Finset.card_range]

/-- C7: an ARMA layer configured with order 1 and iterations 1 and inner
gcn activation None, as used for the output layer, produces the same
output as a single plain graph-convolution step with the same outer
activation and the stack-0 input kernel. -/
theorem armaConv_order1_iterations1_eq_gcnStep {N F H : ℕ} (share : Bool)
    (outerAct : Matrix (Fin N) (Fin H) ℝ → Matrix (Fin N) (Fin H) ℝ)
    (dropSkip : Matrix (Fin N) (Fin H) ℝ → Matrix (Fin N) (Fin H) ℝ)
    (A : Matrix (Fin N) (Fin N) ℝ) (X : Matrix (Fin N) (Fin F) ℝ)
    (W0 : ℕ → Matrix (Fin F) (Fin H) ℝ) (W1 : ℕ → Matrix (Fin H) (Fin H) ℝ)
    (V : ℕ → Matrix (Fin F) (Fin H) ℝ) :
    armaConv 1 1 share outerAct id dropSkip A X W0 W1 V =
      gcnStep outerAct A X (W0 0) := by
  unfold armaConv gcnStep
  rw [Finset.sum_range_one]
  have hidx : (if share = true then 0 else 0) = 0 := ite_self 0
  rw [hidx]
  show outerAct ((A * X * W0 0).map id) = outerAct (A * X * W0 0)
  rw [Matrix.map_id]

end

/-! ## The two composed script models (claims C4, C10)

The model composition is glue code present in the repository: each
script stacks two convolution layers with feature dropout and a final
row-wise softmax. citation_arma.py feeds the raw features to its first
ARMA layer and applies Dropout only between the layers; citation_gat.py
applies Dropout to the raw features before the first attention layer and
again between the layers. Script-level Dropout layers are modelled as
explicit function parameters; layer-internal dropout is taken at
inference time (identity) except for the ARMA skip dropout, which stays
a parameter. -/

noncomputable section

/-- The two-layer model of citation_arma.py: a 2-stack shared-weights
elu ARMA layer on the raw features, feature dropout d, then a 1-stack
1-iteration ARMA layer with softmax outer activation and no inner
activation. -/
def armaScriptModel {N F ch C : ℕ}
    (d : Matrix (Fin N) (Fin ch) ℝ → Matrix (Fin N) (Fin ch) ℝ)
    (dskip1 : Matrix (Fin N) (Fin ch) ℝ → Matrix (Fin N) (Fin ch) ℝ)
    (dskip2 : Matrix (Fin N) (Fin C) ℝ → Matrix (Fin N) (Fin C) ℝ)
    (A : Matrix (Fin N) (Fin N) ℝ) (X : Matrix (Fin N) (Fin F) ℝ)
    (W01 : ℕ → Matrix (Fin F) (Fin ch) ℝ)
    (W11 : ℕ → Matrix (Fin ch) (Fin ch) ℝ)
    (V1 : ℕ → Matrix (Fin F) (Fin ch) ℝ)
    (W02 : ℕ → Matrix (Fin ch) (Fin C) ℝ)
    (W12 : ℕ → Matrix (Fin C) (Fin C) ℝ)
    (V2 : ℕ → Matrix (Fin ch) (Fin C) ℝ) : Matrix (Fin N) (Fin C) ℝ :=
  armaConv 1 1 true rowSoftmax id dskip2 A
    (d (armaConv 2 1 true (fun M => M.map elu) elu dskip1 A X W01 W11 V1))
    W02 W12 V2

/-- The two-layer model of citation_gat.py: input feature dropout dX, an
8-head concatenating elu attention layer, feature dropout dH, then a
single-head attention layer with softmax activation. -/
def gatScriptModel {N F Hn ch C : ℕ}
    (dX : Matrix (Fin N) (Fin F) ℝ → Matrix (Fin N) (Fin F) ℝ)
    (dH : Matrix (Fin N) (Fin Hn × Fin ch) ℝ →
      Matrix (Fin N) (Fin Hn × Fin ch) ℝ)
    (edge : Fin N → Fin N → Bool) (a : ℝ)
    (W1 : Fin Hn → Matrix (Fin F) (Fin ch) ℝ)
    (a11 a12 : Fin Hn → Fin ch → ℝ)
    (W2 : Matrix (Fin Hn × Fin ch) (Fin C) ℝ) (a21 a22 : Fin C → ℝ)
    (X : Matrix (Fin N) (Fin F) ℝ) : Matrix (Fin N) (Fin C) ℝ :=
  rowSoftmax (gatHead edge a W2 a21 a22
    (dH ((concatHeads
      fun k => gatHead edge a (W1 k) (a11 k) (a12 k) (dX X)).map elu)))

/-- Each row of a row-wise softmax sums to 1 when there is at least one
column. -/
theorem rowSoftmax_rowsum {N : ℕ} {ι : Type*} [Fintype ι] [Nonempty ι]
    (M : Matrix (Fin N) ι ℝ) (i : Fin N) : ∑ c, rowSoftmax M i c = 1 := by
  unfold rowSoftmax softmaxRow
  have hpos : 0 < ∑ c2, Real.exp (M i c2) :=
    Finset.sum_pos (fun c _ => Real.exp_pos _) Finset.univ_nonempty
  rw [← Finset.sum_div, div_self hpos.ne']

/-- C4: for every finite input feature matrix and propagation operator,
both composed two-layer models return an N by C matrix in which every
row sums to 1. -/
theorem script_models_rows_sum_to_one {N F ch Hn C : ℕ} (hC : 0 < C)
    (d : Matrix (Fin N) (Fin ch) ℝ → Matrix (Fin N) (Fin ch) ℝ)
    (dskip1 : Matrix (Fin N) (Fin ch) ℝ → Matrix (Fin N) (Fin ch) ℝ)
    (dskip2 : Matrix (Fin N) (Fin C) ℝ → Matrix (Fin N) (Fin C) ℝ)
    (A : Matrix (Fin N) (Fin N) ℝ) (X : Matrix (Fin N) (Fin F) ℝ)
    (W01 : ℕ → Matrix (Fin F) (Fin ch) ℝ)
    (W11 : ℕ → Matrix (Fin ch) (Fin ch) ℝ)
    (V1 : ℕ → Matrix (Fin F) (Fin ch) ℝ)
    (W02 : ℕ → Matrix (Fin ch) (Fin C) ℝ)
    (W12 : ℕ → Matrix (Fin C) (Fin C) ℝ)
    (V2 : ℕ → Matrix (Fin ch) (Fin C) ℝ)
    (dX : Matrix (Fin N) (Fin F) ℝ → Matrix (Fin N) (Fin F) ℝ)
    (dH : Matrix (Fin N) (Fin Hn × Fin ch) ℝ →
      Matrix (Fin N) (Fin Hn × Fin ch) ℝ)
    (edge : Fin N → Fin N → Bool) (a : ℝ)
    (W1 : Fin Hn → Matrix (Fin F) (Fin ch) ℝ)
    (a11 a12 : Fin Hn → Fin ch → ℝ)
    (W2 : Matrix (Fin Hn × Fin ch) (Fin C) ℝ) (a21 a22 : Fin C → ℝ) :
    (∀ i, ∑ c, armaScriptModel d dskip1 dskip2 A X W01 W11 V1 W02 W12 V2
      i c = 1) ∧
    (∀ i, ∑ c, gatScriptModel dX dH edge a W1 a11 a12 W2 a21 a22 X
      i c = 1) := by
  have : Nonempty (Fin C) := ⟨⟨0, hC⟩⟩
  constructor
  · intro i
    unfold armaScriptModel armaConv
    exact rowSoftmax_rowsum _ i
  · intro i
    unfold gatScriptModel
    exact rowSoftmax_rowsum _ i

theorem script_models_rows_sum_to_one_witness :
    0 < 1 ∧
    ((∀ i, ∑ c, @armaScriptModel 1 1 1 1
      id id id 0 0 (fun _ => 0) (fun _ => 0) (fun _ => 0) (fun _ => 0)
      (fun _ => 0) (fun _ => 0) i c = 1) ∧
    (∀ i, ∑ c, @gatScriptModel 1 1 1 1 1
      id id (fun _ _ => true) 0 (fun _ => 0) (fun _ _ => 0)
      (fun _ _ => 0) 0 (fun _ => 0) (fun _ => 0) 0 i c = 1)) :=
  ⟨Nat.one_pos,
    script_models_rows_sum_to_one Nat.one_pos id id id 0 0 (fun _ => 0)
      (fun _ => 0) (fun _ => 0) (fun _ => 0) (fun _ => 0) (fun _ => 0) id id
      (fun _ _ => true) 0 (fun _ => 0) (fun _ _ => 0) (fun _ _ => 0) 0
      (fun _ => 0) (fun _ => 0)⟩

/-- C10: dropout placement differs between the two scripts. The
attention model applies feature dropout dX to the raw input features
before the first layer and dH between the layers, while the ARMA model
applies feature dropout d only between the two layers: its first layer
consumes the raw, undropped features X. -/
theorem dropout_placement_differs {N F ch Hn C : ℕ}
    (d : Matrix (Fin N) (Fin ch) ℝ → Matrix (Fin N) (Fin ch) ℝ)
    (dskip1 : Matrix (Fin N) (Fin ch) ℝ → Matrix (Fin N) (Fin ch) ℝ)
    (dskip2 : Matrix (Fin N) (Fin C) ℝ → Matrix (Fin N) (Fin C) ℝ)
    (A : Matrix (Fin N) (Fin N) ℝ) (X : Matrix (Fin N) (Fin F) ℝ)
    (W01 : ℕ → Matrix (Fin F) (Fin ch) ℝ)
    (W11 : ℕ → Matrix (Fin ch) (Fin ch) ℝ)
    (V1 : ℕ → Matrix (Fin F) (Fin ch) ℝ)
    (W02 : ℕ → Matrix (Fin ch) (Fin C) ℝ)
    (W12 : ℕ → Matrix (Fin C) (Fin C) ℝ)
    (V2 : ℕ → Matrix (Fin ch) (Fin C) ℝ)
    (dX : Matrix (Fin N) (Fin F) ℝ → Matrix (Fin N) (Fin F) ℝ)
    (dH : Matrix (Fin N) (Fin Hn × Fin ch) ℝ →
      Matrix (Fin N) (Fin Hn × Fin ch) ℝ)
    (edge : Fin N → Fin N → Bool) (a : ℝ)
    (W1 : Fin Hn → Matrix (Fin F) (Fin ch) ℝ)
    (a11 a12 : Fin Hn → Fin ch → ℝ)
    (W2 : Matrix (Fin Hn × Fin ch) (Fin C) ℝ) (a21 a22 : Fin C → ℝ) :
    (gatScriptModel dX dH edge a W1 a11 a12 W2 a21 a22 X =
      rowSoftmax (gatHead edge a W2 a21 a22
        (dH ((concatHeads
          fun k => gatHead edge a (W1 k) (a11 k) (a12 k) (dX X)).map elu)))) ∧
    (armaScriptModel d dskip1 dskip2 A X W01 W11 V1 W02 W12 V2 =
      armaConv 1 1 true rowSoftmax id dskip2 A
        (d (armaConv 2 1 true (fun M => M.map elu) elu dskip1 A X
          W01 W11 V1)) W02 W12 V2) :=
  ⟨rfl, rfl⟩

end

end Spektral
